import Mathlib

set_option maxRecDepth 4000
set_option linter.unusedVariables false
set_option linter.unnecessarySimpa false

/-
Verification of the in-page userscript engine (src/injected/web/index.js):
a shallow embedding of its data model and operations, with theorems about
the capability sandbox builder (wrapGM), the protected global view
(getWrapper), the execution scheduler (onLoadScripts), the per-script error
boundary (runCode), the callback registry (addCallback / handleCallback /
registerCallback), GM_addStyle, and the value-store round trip
(GM_setValue / GM_getValue).
-/

/-- JS truthiness of an optional string field: absent and the empty string
are falsy. -/
def truthy : Option String → Bool
  | some s => s != ""
  | none => false

/-- JS `a || b` over optional string fields. -/
def jsOr (a b : Option String) : Option String :=
  if truthy a then a else b

/-- `script.props`: identity of a script descriptor. -/
structure ScriptProps where
  id : String
  uuid : String
deriving DecidableEq

/-- `script.meta`: the parsed userscript header. -/
structure ScriptMeta where
  grant : Option (List String)
  require : Option (List String)
  resources : Option (List (String × String))
  runAt : Option String
  runAtHyphen : Option String
  name : Option String
  namespaceStr : Option String
  version : Option String
  description : Option String
  excludeList : List String
  includeList : List String
  matchList : List String
deriving DecidableEq

/-- `script.custom`: runtime overrides. -/
structure ScriptCustom where
  pathMap : Option (List (String × String))
  name : Option String
  runAt : Option String
  runAtHyphen : Option String
deriving DecidableEq

/-- `script.config`. -/
structure ScriptConfig where
  shouldUpdate : Bool
deriving DecidableEq

/-- A script descriptor as received from the host. -/
structure Script where
  props : ScriptProps
  meta : ScriptMeta
  custom : ScriptCustom
  config : ScriptConfig
deriving DecidableEq

/-- Identity of the `window` binding placed on the GM object by `wrapGM`:
either the real host global object itself, or the distinct protected view
built by `getWrapper`. -/
inductive WindowBinding where
  | realWindow : WindowBinding
  | protectedView : WindowBinding
deriving DecidableEq

/-- The keys of the `gmFunctions` table in `wrapGM`, in source order: the
capability names that have a known implementation. -/
def gmFunctionNames : List String :=
  ["unsafeWindow", "GM_info", "GM_deleteValue", "GM_getValue", "GM_listValues",
   "GM_setValue", "GM_getResourceText", "GM_getResourceURL", "GM_addStyle",
   "GM_log", "GM_openInTab", "GM_registerMenuCommand", "GM_unregisterMenuCommand",
   "GM_xmlhttpRequest", "GM_download", "GM_notification", "GM_setClipboard",
   "AWE_engineStatus", "AWE_startJsPlayer", "AWE_getAvailablePlayers",
   "AWE_openInPlayer", "AWE_getDeviceId", "AWE_registerContextMenuCommand",
   "AWE_getLocale", "AWE_getConfig"]

/-- `if (!includes(grant, n)) grant.push(n)`. -/
def addIfAbsent (g : List String) (n : String) : List String :=
  if n ∈ g then g else g ++ [n]

/-- The observable result of `wrapGM`: which object the `window` binding is,
the property names defined on the GM object (`window` plus every granted
name with a known implementation, in definition order), whether `thisObj`
is the GM object (grant-none case) or the protected view, the final content
of the `grant` array, and the descriptor after the call (`wrapGM` mutates
`script.meta.grant` in place via `pop`/`push` when the field is present). -/
structure WrapResult where
  windowBinding : WindowBinding
  gmProps : List String
  thisIsGm : Bool
  grantAfter : List String
  scriptAfter : Script
deriving DecidableEq

/-- Shallow embedding of `wrapGM` (the capability sandbox builder):
`const grant = script.meta.grant || []`; if the grant list is empty or is
exactly `['none']` the window binding is the real global and the final
`grant.pop()` drops the `'none'`; otherwise the window binding is the
protected view from `getWrapper`. Then `unsafeWindow` and `GM_info` are
pushed when absent and each granted name with an entry in `gmFunctions` is
defined on the fresh GM object. -/
def wrapGM (script : Script) : WrapResult :=
  let grant0 := script.meta.grant.getD []
  let noneGrant : Bool :=
    grant0.length = 0 || (grant0.length = 1 && grant0.head? = some "none")
  let grant1 := if noneGrant then grant0.dropLast else grant0
  let wb := if noneGrant then WindowBinding.realWindow else WindowBinding.protectedView
  let grant2 := addIfAbsent grant1 "unsafeWindow"
  let grant3 := addIfAbsent grant2 "GM_info"
  let gmProps := "window" :: grant3.filter (fun n => decide (n ∈ gmFunctionNames))
  { windowBinding := wb
    gmProps := gmProps
    thisIsGm := noneGrant
    grantAfter := grant3
    scriptAfter :=
      { script with meta := { script.meta with grant := script.meta.grant.map (fun _ => grant3) } } }

/-- A sample descriptor used to instantiate theorems at concrete inputs. -/
def baseScript : Script :=
  { props := { id := "1", uuid := "u-1" }
    meta :=
      { grant := none, require := none, resources := none, runAt := none
        runAtHyphen := none, name := none, namespaceStr := none, version := none
        description := none, excludeList := [], includeList := [], matchList := [] }
    custom := { pathMap := none, name := none, runAt := none, runAtHyphen := none }
    config := { shouldUpdate := false } }

/-- A descriptor declaring the given grants. -/
def scriptWithGrant (g : Option (List String)) : Script :=
  { baseScript with meta := { baseScript.meta with grant := g } }

/-- The three execution phases of `onLoadScripts` (`listMap` keys). -/
inductive Phase where
  | start : Phase
  | idle : Phase
  | endPhase : Phase
deriving DecidableEq

/-- `script.custom.runAt || script.custom['run-at'] || script.meta.runAt ||
script.meta['run-at']` (camelCase preferred since v2.6.3). -/
def runAtOf (s : Script) : Option String :=
  jsOr (jsOr (jsOr s.custom.runAt s.custom.runAtHyphen) s.meta.runAt) s.meta.runAtHyphen

/-- `const list = listMap[runAt] || end`: bucket selection, defaulting to
the end phase for an absent or unrecognized value. -/
def bucketOf (s : Script) : Phase :=
  match runAtOf s with
  | some "document-start" => Phase.start
  | some "document-idle" => Phase.idle
  | some "document-end" => Phase.endPhase
  | _ => Phase.endPhase

/-- `function run(list) { while (list.length) buildCode(list.shift()); }`:
the list is consumed destructively from the front, each script fully
assembled and handed off before the next; the result is the hand-off
order. -/
def runList : List Script → List Script
  | [] => []
  | s :: rest => s :: runList rest

/-- The observable schedule of `onLoadScripts`, as the list of event-loop
turns, each turn the ordered list of scripts handed off during it. Scripts
are bucketed by phase in list order; `run(start)` happens during the
load-message turn; `bridge.load` runs the end bucket and schedules the idle
bucket via `setTimeout(run, 0, idle)`, one macrotask later. When the
document is already interactive or complete (`docReady`), `bridge.load()`
is called in the same turn as `run(start)`; otherwise it runs on the later
`DOMContentLoaded` turn. -/
def onLoadTrace (scripts : List Script) (docReady : Bool) : List (List Script) :=
  let startL := scripts.filter (fun s => decide (bucketOf s = Phase.start))
  let idleL := scripts.filter (fun s => decide (bucketOf s = Phase.idle))
  let endL := scripts.filter (fun s => decide (bucketOf s = Phase.endPhase))
  if docReady then [runList startL ++ runList endL, runList idleL]
  else [runList startL, runList endL, runList idleL]

/-- A sample descriptor with the given id and `meta.runAt`. -/
def scriptWithRunAt (id : String) (ra : Option String) : Script :=
  { baseScript with
    props := { baseScript.props with id := id }
    meta := { baseScript.meta with runAt := ra } }

/-- A thrown script error as observed at the `runCode` boundary: its string
coercion and its (possibly absent) `message` property. -/
structure ErrInfo where
  display : String
  message : Option String
deriving DecidableEq

/-- Shallow embedding of `runCode`: runs one script body (`none` = the body
returns normally, `some e` = it throws `e`), returning the list of error
reports sent to `console.error`. The exception is caught here and never
propagates. -/
def runCode (name : String) (body : Option ErrInfo) : List String :=
  match body with
  | none => []
  | some e =>
    let msg := "Error running script: " ++ name ++ "\n" ++ e.display
    let msg2 := if truthy e.message then msg ++ "\n" ++ e.message.getD "" else msg
    [msg2]

/-- The per-script reports produced by running a whole phase queue: every
entry is processed, in order, regardless of earlier failures (the catch in
`runCode` swallows each script's exception). -/
def runQueue (q : List (String × Option ErrInfo)) : List (List String) :=
  q.map (fun p => runCode p.1 p.2)

/-- A JS value as seen through the protected view, keeping just enough
identity to express `value === unsafeWindow`: the real global object, the
wrapper object itself, `undefined`, or an opaque other value. -/
inductive JSVal where
  | globalObj : JSVal
  | wrapperObj : JSVal
  | undef : JSVal
  | prim : Nat → JSVal
deriving DecidableEq

/-- `value === unsafeWindow ? wrapper : value`: a read whose value is the
real global object is rewritten to the wrapper. -/
def maskGlobal : JSVal → JSVal
  | JSVal.globalObj => JSVal.wrapperObj
  | v => v

/-- The closure state of one `defineProtectedProperty` accessor: the
`modified` flag (set only by the accessor's own setter) and the captured
`value` variable. -/
structure ProtState where
  modified : Bool
  value : JSVal
deriving DecidableEq

/-- The accessor's state right after `getWrapper` defines it: not modified,
`value` still undefined. -/
def initProt : ProtState := { modified := false, value := JSVal.undef }

/-- The getter of `defineProtectedProperty`:
`if (!modified) value = unsafeWindow[name]; return value === unsafeWindow ?
wrapper : value`. `live` is the real global's current value for the
property at the moment of the read. -/
def protectedGet (st : ProtState) (live : JSVal) : JSVal × ProtState :=
  let stored := if st.modified then st.value else live
  (maskGlobal stored, { st with value := stored })

/-- The setter of `defineProtectedProperty`: `modified = true; value = val`. -/
def protectedSet (st : ProtState) (v : JSVal) : ProtState :=
  { modified := true, value := v }

/-- The getter of `defineReactedProperty`: reads the real global live,
masking a self-referential value. -/
def reactedGet (live : JSVal) : JSVal := maskGlobal live

/-- The setter of `defineReactedProperty`: writes through to the real
global property; the result is its new live value. -/
def reactedSet (v : JSVal) : JSVal := v

/-- The deny-list in `getWrapper`: names predefined as `undefined`. -/
def blockedNames : List String := ["browser"]

/-- Names copied directly from the real global by `getWrapper`. -/
def directNames : List String := ["eval"]

/-- The fixed allow-list of global methods re-exposed by `getWrapper` as
bound wrappers (installed only when the method exists on the real
global). -/
def boundNames : List String :=
  ["isFinite", "isNaN", "parseFloat", "parseInt", "decodeURI",
   "decodeURIComponent", "encodeURI", "encodeURIComponent",
   "addEventListener", "alert", "atob", "blur", "btoa", "clearInterval",
   "clearTimeout", "close", "confirm", "dispatchEvent", "fetch", "find",
   "focus", "getComputedStyle", "getDefaultComputedStyle", "getSelection",
   "matchMedia", "moveBy", "moveTo", "open", "openDialog", "postMessage",
   "print", "prompt", "removeEventListener", "requestAnimationFrame",
   "resizeBy", "resizeTo", "scroll", "scrollBy", "scrollByLines",
   "scrollByPages", "scrollTo", "setInterval", "setTimeout", "stop"]

/-- `name in wrapper` before the `bridge.props` loop: the name was
predefined by the deny-list, the direct copies, or a bound method that
exists on the real global (`hasMethod`). -/
def inBaseWrapper (hasMethod : String → Bool) (name : String) : Bool :=
  decide (name ∈ blockedNames) || decide (name ∈ directNames) ||
    (decide (name ∈ boundNames) && hasMethod name)

/-- How `getWrapper` treats one property name of the real global. -/
inductive AccessorKind where
  | preset : AccessorKind
  | reacted : AccessorKind
  | protectedAcc : AccessorKind
deriving DecidableEq

/-- The `bridge.props` loop of `getWrapper`: skip names already in the
wrapper; `name.slice(0, 2) === 'on'` gets the reacted (pass-through)
accessor; everything else gets the protected accessor. -/
def accessorKind (hasMethod : String → Bool) (name : String) : AccessorKind :=
  if inBaseWrapper hasMethod name then AccessorKind.preset
  else if name.take 2 = "on" then AccessorKind.reacted
  else AccessorKind.protectedAcc

/-- A key of `store.callbacks`. In JS the store is one object whose keys
are strings; numeric request ids from `addCallback` and `'VMcb…'` ids from
`registerCallback` live in disjoint parts of the key space (a `'VMcb…'`
string never equals a numeral), which the sum type encodes. -/
inductive CbKey where
  | num : Int → CbKey
  | uniq : String → CbKey
deriving DecidableEq

/-- A continuation stored in `store.callbacks`: either a plain callback
registered by `addCallback`, or the self-deleting wrapper installed by
`registerCallback` (carrying the captured `callbackId`, the wrapped
continuation, and whether that continuation throws when invoked).
Continuations are identified by an opaque id. -/
inductive StoredCb where
  | plain : Nat → StoredCb
  | oneShot : String → Nat → Bool → StoredCb
deriving DecidableEq

/-- The callback part of the module-level `store`:
`lastCallbackId` and `callbacks`. -/
structure CbStore where
  lastCallbackId : Nat
  callbacks : List (CbKey × StoredCb)
deriving DecidableEq

/-- `store` at session start: `lastCallbackId: 0, callbacks: {}`. -/
def initStore : CbStore := { lastCallbackId := 0, callbacks := [] }

/-- `store.callbacks[key]`: property lookup. -/
def alookup : List (CbKey × StoredCb) → CbKey → Option StoredCb
  | [], _ => none
  | p :: t, key => if p.1 = key then some p.2 else alookup t key

/-- `delete store.callbacks[key]`: property removal. -/
def aerase : List (CbKey × StoredCb) → CbKey → List (CbKey × StoredCb)
  | [], _ => []
  | p :: t, key => if p.1 = key then aerase t key else p :: aerase t key

/-- The continuation id a stored callback runs when invoked. -/
def contOf : StoredCb → Nat
  | StoredCb.plain c => c
  | StoredCb.oneShot _ c _ => c

/-- Shallow embedding of `addCallback`: a non-function argument returns the
sentinel -1 without touching the store; otherwise the next integer id is
allocated (`store.lastCallbackId + 1`), the callback stored under it, and
the id returned. -/
def addCallback (isFn : Bool) (c : Nat) (st : CbStore) : Int × CbStore :=
  match isFn with
  | false => (-1, st)
  | true =>
    let requestId := st.lastCallbackId + 1
    (Int.ofNat requestId,
     { lastCallbackId := requestId
       callbacks := (CbKey.num (Int.ofNat requestId), StoredCb.plain c) :: st.callbacks })

/-- Shallow embedding of `handleCallback`: `if (requestId &&
store.callbacks[requestId])` look the continuation up, delete it, then
invoke it; the second component lists the continuations invoked. -/
def handleCallback (rid : Int) (st : CbStore) : CbStore × List Nat :=
  if rid = 0 then (st, [])
  else
    match alookup st.callbacks (CbKey.num rid) with
    | some cb =>
      ({ st with callbacks := aerase st.callbacks (CbKey.num rid) }, [contOf cb])
    | none => (st, [])

/-- Shallow embedding of `registerCallback`: a fresh `'VMcb' + suffix` id
(from `getUniqId`, modelled by the caller-supplied suffix) keys a wrapper
that invokes the continuation and then deletes its own entry. -/
def registerCallback (suffix : String) (c : Nat) (throws : Bool) (st : CbStore) :
    String × CbStore :=
  let callbackId := "VMcb" ++ suffix
  (callbackId,
   { st with callbacks :=
      (CbKey.uniq callbackId, StoredCb.oneShot callbackId c throws) :: st.callbacks })

/-- Shallow embedding of the `Callback` message handler:
`const func = store.callbacks[callbackId]; if (func) func(payload)`. For a
one-shot wrapper the wrapped continuation runs first and the
`delete store.callbacks[callbackId]` line runs only if it returned
normally (a thrown exception skips the delete). The second component lists
the continuations invoked. -/
def dispatchCallback (st : CbStore) (key : CbKey) : CbStore × List Nat :=
  match alookup st.callbacks key with
  | none => (st, [])
  | some (StoredCb.plain c) => (st, [c])
  | some (StoredCb.oneShot cid c throws) =>
    if throws then (st, [c])
    else ({ st with callbacks := aerase st.callbacks (CbKey.uniq cid) }, [c])

/-- The operations that touch `store.callbacks` during a session. -/
inductive CbOp where
  | add : Bool → Nat → CbOp
  | handle : Int → CbOp
  | regOneShot : String → Nat → Bool → CbOp
  | callbackMsg : CbKey → CbOp

/-- State transition of one operation. -/
def applyOp (st : CbStore) (op : CbOp) : CbStore :=
  match op with
  | CbOp.add isFn c => (addCallback isFn c st).2
  | CbOp.handle rid => (handleCallback rid st).1
  | CbOp.regOneShot s c t => (registerCallback s c t st).2
  | CbOp.callbackMsg k => (dispatchCallback st k).1

/-- A session: a sequence of operations from a starting state. -/
def runOps (st : CbStore) (ops : List CbOp) : CbStore := ops.foldl applyOp st

/-- `n` successive dispatches of `Callback` messages bearing the same id
(duplicate replies), with all invoked continuations collected. -/
def dispatchN : Nat → CbStore → CbKey → CbStore × List Nat
  | 0, st, _ => (st, [])
  | Nat.succ n, st, k =>
    let r := dispatchCallback st k
    let r2 := dispatchN n r.1 k
    (r2.1, r.2 ++ r2.2)

/-- Keys reachable in a session: numeric ids are in `[1, lastCallbackId]`,
string ids carry the `'VMcb'` marker. -/
def goodKey (last : Nat) : CbKey → Prop
  | CbKey.num i => 1 ≤ i ∧ i ≤ Int.ofNat last
  | CbKey.uniq s => ∃ t, s = "VMcb" ++ t

/-- The registry invariant. -/
def storeInv (st : CbStore) : Prop :=
  ∀ p ∈ st.callbacks, goodKey st.lastCallbackId p.1

/-- The store after registering a one-shot whose continuation throws. -/
def oneShotThrowStore : CbStore := (registerCallback "A" 3 true initStore).2

/-- A sample phase queue: the first script throws, the second returns. -/
def qSample : List (String × Option ErrInfo) :=
  [("bad", some { display := "boom", message := none }), ("good", none)]

/-- The closure state of one `GM_addStyle` call: `el` (`none` models the
initial `false`, `some e` the element reported by the host — itself
`Option` because `getElementById` may return null) and the `callbacks`
array of pending `.then` callbacks (identified by opaque ids). -/
structure AddStyleState where
  el : Option (Option Nat)
  pendingCbs : List Nat
deriving DecidableEq

/-- State right after `GM_addStyle` posts its `AddStyle` command. -/
def addStyleInit : AddStyleState := { el := none, pendingCbs := [] }

/-- `array.splice()` with no arguments: `actualDeleteCount` is 0, so it
removes nothing and returns the empty array (removed, remaining). -/
def spliceNoArgs (l : List Nat) : List Nat × List Nat := ([], l)

/-- The `then` method of the thenable returned by `GM_addStyle`:
`if (el !== false) callback(el); else callbacks.push(callback)`. Returns
the new state and the (callback, element) invocations performed. -/
def addStyleThen (st : AddStyleState) (cb : Nat) :
    AddStyleState × List (Nat × Option Nat) :=
  match st.el with
  | some e => (st, [(cb, e)])
  | none => ({ st with pendingCbs := st.pendingCbs ++ [cb] }, [])

/-- The one-shot `AddStyle` callback body:
`el = document.getElementById(styleId); callbacks.splice().forEach(cb =>
cb(el))`. Returns the new state and the invocations performed. -/
def addStyleCallback (st : AddStyleState) (elem : Option Nat) :
    AddStyleState × List (Nat × Option Nat) :=
  let sp := spliceNoArgs st.pendingCbs
  ({ el := some elem, pendingCbs := sp.2 }, sp.1.map (fun cb => (cb, elem)))

/- The value store (C5). The helpers `jsonDump` / `jsonLoad` live in
src/utils/helpers (not under src/ here); they are modelled below as a
canonical JSON serializer and parser over `List Char` (the model of a JS
string). JS numbers are modelled as integers. -/

def quoteC : Char := Char.ofNat 34
def backslashC : Char := Char.ofNat 92
def lbrackC : Char := Char.ofNat 91
def rbrackC : Char := Char.ofNat 93
def lbraceC : Char := Char.ofNat 123
def rbraceC : Char := Char.ofNat 125

inductive JSON where
  | null : JSON
  | bool : Bool → JSON
  | num : Int → JSON
  | str : List Char → JSON
  | arr : List JSON → JSON
  | obj : List (List Char × JSON) → JSON

def escChar (c : Char) : List Char :=
  if c = quoteC ∨ c = backslashC then [backslashC, c] else [c]

def escList (s : List Char) : List Char := s.flatMap escChar

def printStringJ (s : List Char) : List Char := quoteC :: (escList s ++ [quoteC])

def digitToChar (d : Nat) : Char := Char.ofNat (48 + d)

def natChars (n : Nat) : List Char :=
  if n = 0 then [digitToChar 0] else ((Nat.digits 10 n).map digitToChar).reverse

def intChars (i : Int) : List Char :=
  if i < 0 then '-' :: natChars i.natAbs else natChars i.toNat

mutual
def printJ : JSON → List Char
  | JSON.null => ['n', 'u', 'l', 'l']
  | JSON.bool true => ['t', 'r', 'u', 'e']
  | JSON.bool false => ['f', 'a', 'l', 's', 'e']
  | JSON.num i => intChars i
  | JSON.str s => printStringJ s
  | JSON.arr xs => lbrackC :: (printItems xs ++ [rbrackC])
  | JSON.obj fs => lbraceC :: (printFields fs ++ [rbraceC])
def printItems : List JSON → List Char
  | [] => []
  | [x] => printJ x
  | x :: y :: t => printJ x ++ ',' :: printItems (y :: t)
def printFields : List (List Char × JSON) → List Char
  | [] => []
  | [f] => printStringJ f.1 ++ ':' :: printJ f.2
  | f :: g :: t => (printStringJ f.1 ++ ':' :: printJ f.2) ++ ',' :: printFields (g :: t)
end

def parseStr : List Char → Option (List Char × List Char)
  | [] => none
  | c :: rest =>
    if c = backslashC then
      match rest with
      | [] => none
      | d :: rest2 =>
        match parseStr rest2 with
        | some (s, r) => some (d :: s, r)
        | none => none
    else if c = quoteC then some ([], rest)
    else
      match parseStr rest with
      | some (s, r) => some (c :: s, r)
      | none => none

def dropLit : List Char → List Char → Option (List Char)
  | [], l => some l
  | _ :: _, [] => none
  | c :: t, d :: l => if c = d then dropLit t l else none

def charDigitVal (c : Char) : Nat := c.toNat - 48

def charsToNat (ds : List Char) : Nat := ds.foldl (fun a c => a * 10 + charDigitVal c) 0

mutual
def parseVal : Nat → List Char → Option (JSON × List Char)
  | 0, _ => none
  | Nat.succ fuel, l =>
    match l with
    | [] => none
    | c :: rest =>
      if c = 'n' then
        match dropLit ['u', 'l', 'l'] rest with
        | some r => some (JSON.null, r)
        | none => none
      else if c = 't' then
        match dropLit ['r', 'u', 'e'] rest with
        | some r => some (JSON.bool true, r)
        | none => none
      else if c = 'f' then
        match dropLit ['a', 'l', 's', 'e'] rest with
        | some r => some (JSON.bool false, r)
        | none => none
      else if c = quoteC then
        match parseStr rest with
        | some (s, r) => some (JSON.str s, r)
        | none => none
      else if c = lbrackC then
        match parseItems fuel rest with
        | some (vs, r) => some (JSON.arr vs, r)
        | none => none
      else if c = lbraceC then
        match parseFields fuel rest with
        | some (fs, r) => some (JSON.obj fs, r)
        | none => none
      else if c = '-' then
        match rest with
        | [] => none
        | d :: _ =>
          if d.isDigit then
            some (JSON.num (-(Int.ofNat (charsToNat (rest.takeWhile Char.isDigit)))),
              rest.dropWhile Char.isDigit)
          else none
      else if c.isDigit then
        some (JSON.num (Int.ofNat (charsToNat ((c :: rest).takeWhile Char.isDigit))),
          (c :: rest).dropWhile Char.isDigit)
      else none
def parseItems : Nat → List Char → Option (List JSON × List Char)
  | 0, _ => none
  | Nat.succ fuel, l =>
    match l with
    | [] => none
    | c :: rest =>
      if c = rbrackC then some ([], rest)
      else
        match parseVal fuel (c :: rest) with
        | none => none
        | some (v, r) =>
          match r with
          | [] => none
          | d :: r2 =>
            if d = ',' then
              match parseItems fuel r2 with
              | some (vs, rr) => some (v :: vs, rr)
              | none => none
            else if d = rbrackC then some ([v], r2)
            else none
def parseFields : Nat → List Char → Option (List (List Char × JSON) × List Char)
  | 0, _ => none
  | Nat.succ fuel, l =>
    match l with
    | [] => none
    | c :: rest =>
      if c = rbraceC then some ([], rest)
      else if c = quoteC then
        match parseStr rest with
        | none => none
        | some (k, r) =>
          match r with
          | [] => none
          | d :: r2 =>
            if d = ':' then
              match parseVal fuel r2 with
              | none => none
              | some (v, r3) =>
                match r3 with
                | [] => none
                | e :: r4 =>
                  if e = ',' then
                    match parseFields fuel r4 with
                    | some (fs, rr) => some ((k, v) :: fs, rr)
                    | none => none
                  else if e = rbraceC then some ([(k, v)], r4)
                  else none
            else none
      else none
end

mutual
def sizeJ : JSON → Nat
  | JSON.null => 1
  | JSON.bool _ => 1
  | JSON.num _ => 1
  | JSON.str _ => 1
  | JSON.arr xs => 2 + sizeItems xs
  | JSON.obj fs => 2 + sizeFields fs
def sizeItems : List JSON → Nat
  | [] => 0
  | x :: t => sizeJ x + 1 + sizeItems t
def sizeFields : List (List Char × JSON) → Nat
  | [] => 0
  | f :: t => sizeJ f.2 + 1 + sizeFields t
end

def noDigitHead (l : List Char) : Prop :=
  ∀ c, l.head? = some c → c.isDigit = false

/-- Modelled from the spec: `jsonDump` (src/utils/helpers, not under src/)
wraps `JSON.stringify`; modelled as the canonical printer. -/
def jsonDump (v : JSON) : List Char := printJ v

/-- Modelled from the spec: `jsonLoad` (src/utils/helpers, not under src/)
wraps `JSON.parse`, which throws on malformed input — modelled as `none`.
The fuel bound is ample for every printer image (see `sizeLen`). -/
def jsonLoad (s : List Char) : Option JSON :=
  match parseVal (2 * s.length + 1) s with
  | some (v, []) => some v
  | _ => none


/-- A value returned by `GM_getValue`: a decoded JSON value or the raw
payload kept after a decode failure. -/
inductive GMVal where
  | js : JSON → GMVal
  | raw : List Char → GMVal

/-- Modelled from the spec: the legacy `'n'` decoder applies the host
`Number()` conversion; modelled on integer numerals, with `none` standing
for the unrepresentable NaN result (floats are out of the embedding). -/
def parseIntChars : List Char → Option Int
  | [] => none
  | c :: rest =>
    if c = '-' then
      if rest ≠ [] ∧ rest.all Char.isDigit then some (-(Int.ofNat (charsToNat rest)))
      else none
    else if (c :: rest).all Char.isDigit then some (Int.ofNat (charsToNat (c :: rest)))
    else none

/-- The `dataDecoders` table of `wrapGM` applied to a tagged raw value:
`'o'` = JSON, `'n'` = legacy number, `'b'` = legacy boolean; a decoder
failure (the catch around `handle(val)`) or an unknown tag leaves the raw
payload. -/
def dataDecode (tag : Char) (payload : List Char) : GMVal :=
  if tag = 'o' then
    match jsonLoad payload with
    | some v => GMVal.js v
    | none => GMVal.raw payload
  else if tag = 'n' then
    match parseIntChars payload with
    | some i => GMVal.js (JSON.num i)
    | none => GMVal.raw payload
  else if tag = 'b' then GMVal.js (JSON.bool (decide (payload = ['t', 'r', 'u', 'e'])))
  else GMVal.raw payload

/-- Shallow embedding of `GM_setValue` over one script's value mapping
(`loadValues()` in the source): `dumped = jsonDump(val)`, the stored raw
value is `'o' + dumped` (or null when the dump is falsy), the local cache
is updated synchronously, and the second component is the single-key
`UpdateValue` notification posted to the host (`dumpValue`). -/
def GM_setValue (values : String → Option (List Char)) (key : String) (v : JSON) :
    (String → Option (List Char)) × (String × Option (List Char)) :=
  let dumped := jsonDump v
  let raw := if dumped = [] then none else some ('o' :: dumped)
  (fun k => if k = key then raw else values k, (key, raw))

/-- Shallow embedding of `GM_getValue`: a purely local read of the cached
mapping — no host round-trip. A falsy raw value (absent, null, or the
empty string) yields the default; otherwise the one-byte tag selects the
decoder. -/
def GM_getValue (values : String → Option (List Char)) (key : String)
    (dflt : Option GMVal) : Option GMVal :=
  match values key with
  | some raw =>
    match raw with
    | [] => dflt
    | tag :: payload => some (dataDecode tag payload)
  | none => dflt

/- ------------------------------------------------------------------ -/
/- Theorems                                                            -/
/- ------------------------------------------------------------------ -/

theorem length_none_iff (l : List String) :
    (l.length = 0 || (l.length = 1 && l.head? = some "none")) = true ↔
      (l = [] ∨ l = ["none"]) := by
  cases l with
  | nil => simp
  | cons a t => cases t <;> simp

/-- C1: if a script's declared grant list is empty or exactly `["none"]`,
the `window` binding of the sandbox built by `wrapGM` is the real host
global object itself (no proxying); for every other grant list, the
`window` binding is the distinct protected-view object, which is not the
real global object. -/
theorem wrapGM_window_binding (script : Script) :
    ((wrapGM script).windowBinding = WindowBinding.realWindow ↔
      (script.meta.grant.getD [] = [] ∨ script.meta.grant.getD [] = ["none"])) ∧
    ((wrapGM script).windowBinding = WindowBinding.protectedView ↔
      ¬ (script.meta.grant.getD [] = [] ∨ script.meta.grant.getD [] = ["none"])) := by
  have h := length_none_iff (script.meta.grant.getD [])
  have key : (wrapGM script).windowBinding =
      (if ((script.meta.grant.getD []).length = 0 ||
          ((script.meta.grant.getD []).length = 1 &&
            (script.meta.grant.getD []).head? = some "none")) = true
       then WindowBinding.realWindow else WindowBinding.protectedView) := rfl
  by_cases hc : script.meta.grant.getD [] = [] ∨ script.meta.grant.getD [] = ["none"]
  · rw [key, if_pos (h.mpr hc)]
    exact ⟨⟨fun _ => hc, fun _ => rfl⟩,
      ⟨fun hx => absurd hx (by decide), fun hx => absurd hc hx⟩⟩
  · have hb : ¬ (((script.meta.grant.getD []).length = 0 ||
        ((script.meta.grant.getD []).length = 1 &&
          (script.meta.grant.getD []).head? = some "none")) = true) :=
      fun hbt => hc (h.mp hbt)
    rw [key, if_neg hb]
    exact ⟨⟨fun hx => absurd hx (by decide), fun hp => absurd (h.mpr hp) hb⟩,
      ⟨fun _ => hc, fun _ => rfl⟩⟩

theorem mem_addIfAbsent (g : List String) (n a : String) :
    a ∈ addIfAbsent g n ↔ (a ∈ g ∨ a = n) := by
  unfold addIfAbsent
  split
  · next hn =>
    constructor
    · exact fun h => Or.inl h
    · rintro (h | rfl)
      · exact h
      · exact hn
  · simp

theorem wrapGM_gmProps_mem (script : Script) (n : String) :
    n ∈ (wrapGM script).gmProps ↔
      (n = "window" ∨ (n ∈ (wrapGM script).grantAfter ∧ n ∈ gmFunctionNames)) := by
  show n ∈ "window" :: (wrapGM script).grantAfter.filter
      (fun m => decide (m ∈ gmFunctionNames)) ↔ _
  simp [List.mem_filter]

theorem mem_grantAfter (script : Script) (n : String) (hn : n ≠ "none") :
    n ∈ (wrapGM script).grantAfter ↔
      (n ∈ script.meta.grant.getD [] ∨ n = "unsafeWindow" ∨ n = "GM_info") := by
  have key : (wrapGM script).grantAfter =
      addIfAbsent (addIfAbsent
        (if ((script.meta.grant.getD []).length = 0 ||
            ((script.meta.grant.getD []).length = 1 &&
              (script.meta.grant.getD []).head? = some "none")) = true
         then (script.meta.grant.getD []).dropLast else script.meta.grant.getD [])
        "unsafeWindow") "GM_info" := rfl
  rw [key, mem_addIfAbsent, mem_addIfAbsent]
  by_cases hc : ((script.meta.grant.getD []).length = 0 ||
      ((script.meta.grant.getD []).length = 1 &&
        (script.meta.grant.getD []).head? = some "none")) = true
  · rw [if_pos hc]
    rcases (length_none_iff _).mp hc with h0 | h0 <;> rw [h0] <;> simp [hn]
  · rw [if_neg hc]
    tauto

/-- C2: for every capability name with a known implementation (a key of
`gmFunctions`), the GM object built by `wrapGM` carries a binding for it
exactly when the name is in the effective grant set (the declared grants
plus the always-added implicit `unsafeWindow` and `GM_info`); every other
name (apart from the `window` binding itself) is absent from the GM object,
and granting an unknown name is simply skipped, never an error. -/
theorem wrapGM_gm_membership (script : Script) (n : String) :
    (n ∈ gmFunctionNames →
      (n ∈ (wrapGM script).gmProps ↔
        (n ∈ script.meta.grant.getD [] ∨ n = "unsafeWindow" ∨ n = "GM_info"))) ∧
    (n ∉ gmFunctionNames → n ≠ "window" → n ∉ (wrapGM script).gmProps) := by
  constructor
  · intro hk
    have hwin : n ≠ "window" := by
      intro he
      rw [he] at hk
      revert hk
      decide
    have hnone : n ≠ "none" := by
      intro he
      rw [he] at hk
      revert hk
      decide
    rw [wrapGM_gmProps_mem, ← mem_grantAfter script n hnone]
    constructor
    · rintro (h | ⟨h, -⟩)
      · exact absurd h hwin
      · exact h
    · intro h
      exact Or.inr ⟨h, hk⟩
  · intro hk hw
    rw [wrapGM_gmProps_mem]
    rintro (h | ⟨-, h⟩)
    · exact hw h
    · exact hk h

theorem wrapGM_gm_membership_witness :
    ("GM_getValue" ∈ (wrapGM (scriptWithGrant (some ["GM_getValue"]))).gmProps ↔
      ("GM_getValue" ∈ (scriptWithGrant (some ["GM_getValue"])).meta.grant.getD [] ∨
        "GM_getValue" = "unsafeWindow" ∨ "GM_getValue" = "GM_info")) ∧
    "someUnknownName" ∉ (wrapGM (scriptWithGrant (some ["someUnknownName"]))).gmProps :=
  ⟨(wrapGM_gm_membership (scriptWithGrant (some ["GM_getValue"])) "GM_getValue").1
      (by decide),
   (wrapGM_gm_membership (scriptWithGrant (some ["someUnknownName"])) "someUnknownName").2
      (by decide) (by decide)⟩

/-- C9 counterexample: `wrapGM` mutates the descriptor it is given. For a
script declaring `grant: ["none"]`, after building the sandbox the
descriptor's `meta.grant` has become `["unsafeWindow", "GM_info"]` (the
`"none"` entry was popped and the implicit grants pushed in place). -/
theorem wrapGM_mutates_grant_counterexample :
    (scriptWithGrant (some ["none"])).meta.grant = some ["none"] ∧
    (wrapGM (scriptWithGrant (some ["none"]))).scriptAfter.meta.grant =
      some ["unsafeWindow", "GM_info"] ∧
    (wrapGM (scriptWithGrant (some ["none"]))).scriptAfter.meta.grant ≠
      (scriptWithGrant (some ["none"])).meta.grant := by decide

/-- C9 amended: building a sandbox with `wrapGM` leaves every field of the
descriptor unchanged except `meta.grant`, which (when present) is mutated
in place to the post-normalization grant list: a sole `"none"` entry is
popped, and `"unsafeWindow"` / `"GM_info"` are appended when absent. -/
theorem wrapGM_descriptor_frame (script : Script) :
    (wrapGM script).scriptAfter.props = script.props ∧
    (wrapGM script).scriptAfter.custom = script.custom ∧
    (wrapGM script).scriptAfter.config = script.config ∧
    (wrapGM script).scriptAfter.meta.require = script.meta.require ∧
    (wrapGM script).scriptAfter.meta.resources = script.meta.resources ∧
    (wrapGM script).scriptAfter.meta.runAt = script.meta.runAt ∧
    (wrapGM script).scriptAfter.meta.runAtHyphen = script.meta.runAtHyphen ∧
    (wrapGM script).scriptAfter.meta.name = script.meta.name ∧
    (wrapGM script).scriptAfter.meta.namespaceStr = script.meta.namespaceStr ∧
    (wrapGM script).scriptAfter.meta.version = script.meta.version ∧
    (wrapGM script).scriptAfter.meta.description = script.meta.description ∧
    (wrapGM script).scriptAfter.meta.excludeList = script.meta.excludeList ∧
    (wrapGM script).scriptAfter.meta.includeList = script.meta.includeList ∧
    (wrapGM script).scriptAfter.meta.matchList = script.meta.matchList ∧
    (wrapGM script).scriptAfter.meta.grant =
      script.meta.grant.map (fun _ => (wrapGM script).grantAfter) :=
  ⟨rfl, rfl, rfl, rfl, rfl, rfl, rfl, rfl, rfl, rfl, rfl, rfl, rfl, rfl, rfl⟩

/-- C6: for loaded scripts [A(start), B(end), C(idle), D(end)], the trace is
A handed off first, then B and D in their original relative order, then C
alone on a strictly later event-loop turn; within each phase the list is
consumed one element at a time in list order. -/
theorem schedule_order (A B C D : Script) (docReady : Bool)
    (hA : bucketOf A = Phase.start) (hB : bucketOf B = Phase.endPhase)
    (hC : bucketOf C = Phase.idle) (hD : bucketOf D = Phase.endPhase) :
    onLoadTrace [A, B, C, D] docReady =
      (if docReady then [[A, B, D], [C]] else [[A], [B, D], [C]]) ∧
    (onLoadTrace [A, B, C, D] docReady).flatten = [A, B, D, C] := by
  constructor
  · cases docReady <;> simp [onLoadTrace, List.filter, hA, hB, hC, hD, runList]
  · cases docReady <;> simp [onLoadTrace, List.filter, hA, hB, hC, hD, runList]

theorem schedule_order_witness :
    onLoadTrace [scriptWithRunAt "A" (some "document-start"),
      scriptWithRunAt "B" (some "document-end"),
      scriptWithRunAt "C" (some "document-idle"),
      scriptWithRunAt "D" (some "document-end")] true =
      (if true then
        [[scriptWithRunAt "A" (some "document-start"),
          scriptWithRunAt "B" (some "document-end"),
          scriptWithRunAt "D" (some "document-end")],
         [scriptWithRunAt "C" (some "document-idle")]]
       else
        [[scriptWithRunAt "A" (some "document-start")],
         [scriptWithRunAt "B" (some "document-end"),
          scriptWithRunAt "D" (some "document-end")],
         [scriptWithRunAt "C" (some "document-idle")]]) ∧
    (onLoadTrace [scriptWithRunAt "A" (some "document-start"),
      scriptWithRunAt "B" (some "document-end"),
      scriptWithRunAt "C" (some "document-idle"),
      scriptWithRunAt "D" (some "document-end")] true).flatten =
      [scriptWithRunAt "A" (some "document-start"),
       scriptWithRunAt "B" (some "document-end"),
       scriptWithRunAt "D" (some "document-end"),
       scriptWithRunAt "C" (some "document-idle")] :=
  schedule_order _ _ _ _ true (by decide) (by decide) (by decide) (by decide)

/-- C4: `runCode` catches a throwing script body at the per-script
boundary; the queue produces one output slot per scheduled script (no
script prevents a later one from running), a throwing script yields exactly
one error report and that report contains the script's name, and a normal
script yields no report. -/
theorem runCode_isolation (q : List (String × Option ErrInfo)) :
    (runQueue q).length = q.length ∧
    (∀ (i : Nat) (name : String) (e : ErrInfo), q[i]? = some (name, some e) →
      ∃ post, (runQueue q)[i]? = some ["Error running script: " ++ name ++ post]) ∧
    (∀ (i : Nat) (name : String), q[i]? = some (name, none) → (runQueue q)[i]? = some []) := by
  refine ⟨by simp [runQueue], ?_, ?_⟩
  · intro i name e h
    by_cases hm : truthy e.message = true
    · exact ⟨"\n" ++ e.display ++ "\n" ++ e.message.getD "",
        by rw [runQueue, List.getElem?_map, h]; simp [runCode, hm, String.append_assoc]⟩
    · exact ⟨"\n" ++ e.display,
        by rw [runQueue, List.getElem?_map, h]; simp [runCode, hm, String.append_assoc]⟩
  · intro i name h
    rw [runQueue, List.getElem?_map, h]
    simp [runCode]

theorem runCode_isolation_witness :
    (runQueue qSample).length = qSample.length ∧
    (∃ post, (runQueue qSample)[0]? = some ["Error running script: " ++ "bad" ++ post]) ∧
    (runQueue qSample)[1]? = some [] :=
  ⟨(runCode_isolation qSample).1,
   (runCode_isolation qSample).2.1 0 "bad" { display := "boom", message := none } (by decide),
   (runCode_isolation qSample).2.2 1 "good" (by decide)⟩

/-- C3 counterexample: the protected accessor does not snapshot on first
read. For a non-handler property (here "screenX", which is in
`bridge.props` territory: not denied, not bound, not "on"-prefixed), a
first read returns the live value 1, and after the real global's property
changes to 2 a second read returns 2 — not the claimed first-read
snapshot 1 — because `modified` is only ever set by the accessor's own
setter. -/
theorem protected_snapshot_counterexample :
    accessorKind (fun _ => false) "screenX" = AccessorKind.protectedAcc ∧
    (protectedGet initProt (JSVal.prim 1)).1 = JSVal.prim 1 ∧
    (protectedGet (protectedGet initProt (JSVal.prim 1)).2 (JSVal.prim 2)).1 =
      JSVal.prim 2 ∧
    JSVal.prim 2 ≠ JSVal.prim 1 := by decide

/-- C3 amended: for a `bridge.props` name not already in the base wrapper,
an "on"-prefixed name gets the pass-through (reacted) accessor and any
other name the protected accessor; a protected read while the property has
never been written through the view's setter returns the real global's
current value (so reads stay live until a write, not frozen at first
read); the view's setter marks the property modified; once modified, every
later read returns the stored value regardless of the live global, and the
state no longer changes; reacted reads pass the live value through; and
any read whose value is the real global object itself yields the wrapper
instead. -/
theorem protected_view_semantics (hasMethod : String → Bool) (name : String)
    (st : ProtState) (live v : JSVal) :
    (inBaseWrapper hasMethod name = false → name.take 2 = "on" →
      accessorKind hasMethod name = AccessorKind.reacted) ∧
    (inBaseWrapper hasMethod name = false → name.take 2 ≠ "on" →
      accessorKind hasMethod name = AccessorKind.protectedAcc) ∧
    (st.modified = false → (protectedGet st live).1 = maskGlobal live) ∧
    (st.modified = false → ((protectedGet st live).2).modified = false) ∧
    ((protectedSet st v).modified = true ∧ (protectedSet st v).value = v) ∧
    (st.modified = true →
      (protectedGet st live).1 = maskGlobal st.value ∧ (protectedGet st live).2 = st) ∧
    reactedGet live = maskGlobal live ∧
    maskGlobal JSVal.globalObj = JSVal.wrapperObj := by
  refine ⟨?_, ?_, ?_, ?_, ⟨rfl, rfl⟩, ?_, rfl, rfl⟩
  · intro hb hon
    simp [accessorKind, hb, hon]
  · intro hb hon
    simp [accessorKind, hb, hon]
  · intro hm
    simp [protectedGet, hm]
  · intro hm
    simp [protectedGet, hm]
  · intro hm
    obtain ⟨m, val⟩ := st
    simp only [ProtState.modified] at hm
    subst hm
    simp [protectedGet]

theorem protected_view_semantics_witness :
    accessorKind (fun _ => false) "onclick" = AccessorKind.reacted ∧
    accessorKind (fun _ => false) "screenY" = AccessorKind.protectedAcc ∧
    (protectedGet initProt JSVal.globalObj).1 = maskGlobal JSVal.globalObj ∧
    ((protectedGet (protectedSet initProt (JSVal.prim 7)) (JSVal.prim 9)).1 =
      maskGlobal (protectedSet initProt (JSVal.prim 7)).value ∧
     (protectedGet (protectedSet initProt (JSVal.prim 7)) (JSVal.prim 9)).2 =
      protectedSet initProt (JSVal.prim 7)) :=
  ⟨(protected_view_semantics (fun _ => false) "onclick" initProt JSVal.undef
      JSVal.undef).1 (by decide) (by decide),
   (protected_view_semantics (fun _ => false) "screenY" initProt JSVal.undef
      JSVal.undef).2.1 (by decide) (by decide),
   (protected_view_semantics (fun _ => false) "x" initProt JSVal.globalObj
      JSVal.undef).2.2.1 (by decide),
   (protected_view_semantics (fun _ => false) "x"
      (protectedSet initProt (JSVal.prim 7)) (JSVal.prim 9) JSVal.undef).2.2.2.2.2.1
      (by decide)⟩

theorem alookup_some_mem {l : List (CbKey × StoredCb)} {k : CbKey} {v : StoredCb}
    (h : alookup l k = some v) : (k, v) ∈ l := by
  induction l with
  | nil => simp [alookup] at h
  | cons p t ih =>
    rw [alookup] at h
    by_cases hp : p.1 = k
    · rw [if_pos hp] at h
      obtain ⟨k1, v1⟩ := p
      injection h with h2
      rw [← hp, ← h2]
      exact List.mem_cons_self _ _
    · rw [if_neg hp] at h
      exact List.mem_cons_of_mem _ (ih h)

theorem alookup_eq_none_of (l : List (CbKey × StoredCb)) (k : CbKey)
    (h : ∀ p ∈ l, p.1 ≠ k) : alookup l k = none := by
  induction l with
  | nil => rfl
  | cons p t ih =>
    rw [alookup, if_neg (h p (List.mem_cons_self _ _))]
    exact ih (fun q hq => h q (List.mem_cons_of_mem _ hq))

theorem mem_aerase {l : List (CbKey × StoredCb)} {k : CbKey} {p : CbKey × StoredCb}
    (h : p ∈ aerase l k) : p ∈ l := by
  induction l with
  | nil => simpa [aerase] using h
  | cons q t ih =>
    rw [aerase] at h
    split at h
    · exact List.mem_cons_of_mem _ (ih h)
    · rcases List.mem_cons.mp h with h1 | h1
      · rw [h1]
        exact List.mem_cons_self _ _
      · exact List.mem_cons_of_mem _ (ih h1)

theorem alookup_aerase (l : List (CbKey × StoredCb)) (k : CbKey) :
    alookup (aerase l k) k = none := by
  induction l with
  | nil => rfl
  | cons p t ih =>
    rw [aerase]
    split
    · exact ih
    · next hp =>
      rw [alookup, if_neg hp]
      exact ih

theorem aerase_of_none (l : List (CbKey × StoredCb)) (k : CbKey)
    (h : alookup l k = none) : aerase l k = l := by
  induction l with
  | nil => rfl
  | cons p t ih =>
    rw [alookup] at h
    split at h
    · exact absurd h (by simp)
    · next hp =>
      rw [aerase, if_neg hp, ih h]

theorem dispatchCallback_none {st : CbStore} {k : CbKey}
    (h : alookup st.callbacks k = none) : dispatchCallback st k = (st, []) := by
  unfold dispatchCallback
  rw [h]

theorem dispatchCallback_oneShot {st : CbStore} {k : CbKey} {cid : String} {c : Nat}
    (h : alookup st.callbacks k = some (StoredCb.oneShot cid c false)) :
    dispatchCallback st k =
      ({ st with callbacks := aerase st.callbacks (CbKey.uniq cid) }, [c]) := by
  unfold dispatchCallback
  rw [h]
  exact rfl

theorem dispatchCallback_oneShot_throws {st : CbStore} {k : CbKey} {cid : String} {c : Nat}
    (h : alookup st.callbacks k = some (StoredCb.oneShot cid c true)) :
    dispatchCallback st k = (st, [c]) := by
  unfold dispatchCallback
  rw [h]
  exact rfl

theorem dispatchN_of_none (n : Nat) (st : CbStore) (k : CbKey)
    (h : alookup st.callbacks k = none) : dispatchN n st k = (st, []) := by
  induction n with
  | zero => rfl
  | succ m ih =>
    simp [dispatchN, dispatchCallback_none h, ih]

theorem goodKey_mono {a b : Nat} (h : a ≤ b) {k : CbKey} (hk : goodKey a k) :
    goodKey b k := by
  cases k with
  | num i =>
    exact ⟨hk.1, le_trans hk.2 (Int.ofNat_le.mpr h)⟩
  | uniq s => exact hk

theorem storeInv_applyOp (st : CbStore) (op : CbOp) (h : storeInv st) :
    storeInv (applyOp st op) ∧ st.lastCallbackId ≤ (applyOp st op).lastCallbackId := by
  cases op with
  | add isFn c =>
    cases isFn with
    | false => exact ⟨h, le_refl _⟩
    | true =>
      constructor
      · intro p hp
        rcases List.mem_cons.mp hp with h1 | h1
        · rw [h1]
          exact ⟨Int.ofNat_le.mpr (Nat.succ_le_succ (Nat.zero_le _)), le_refl _⟩
        · exact goodKey_mono (Nat.le_succ _) (h p h1)
      · exact Nat.le_succ _
  | handle rid =>
    show storeInv (handleCallback rid st).1 ∧
      st.lastCallbackId ≤ (handleCallback rid st).1.lastCallbackId
    unfold handleCallback
    by_cases h0 : rid = 0
    · rw [if_pos h0]
      exact ⟨h, le_refl _⟩
    · rw [if_neg h0]
      cases halk : alookup st.callbacks (CbKey.num rid) with
      | none =>
        simp only
        exact ⟨h, le_refl _⟩
      | some cb =>
        simp only
        exact ⟨fun p hp => h p (mem_aerase hp), le_refl _⟩
  | regOneShot s c t =>
    refine ⟨?_, le_refl _⟩
    intro p hp
    rcases List.mem_cons.mp hp with h1 | h1
    · rw [h1]
      exact ⟨s, rfl⟩
    · exact h p h1
  | callbackMsg k =>
    show storeInv (dispatchCallback st k).1 ∧
      st.lastCallbackId ≤ (dispatchCallback st k).1.lastCallbackId
    cases halk : alookup st.callbacks k with
    | none =>
      rw [dispatchCallback_none halk]
      exact ⟨h, le_refl _⟩
    | some cb =>
      cases cb with
      | plain c =>
        have : dispatchCallback st k = (st, [c]) := by
          unfold dispatchCallback
          rw [halk]
        rw [this]
        exact ⟨h, le_refl _⟩
      | oneShot cid c throws =>
        cases throws with
        | true =>
          rw [dispatchCallback_oneShot_throws halk]
          exact ⟨h, le_refl _⟩
        | false =>
          rw [dispatchCallback_oneShot halk]
          exact ⟨fun p hp => h p (mem_aerase hp), le_refl _⟩

theorem storeInv_runOps (ops : List CbOp) : ∀ st : CbStore, storeInv st →
    storeInv (runOps st ops) ∧ st.lastCallbackId ≤ (runOps st ops).lastCallbackId := by
  induction ops with
  | nil => exact fun st h => ⟨h, le_refl _⟩
  | cons op t ih =>
    intro st h
    have h1 := storeInv_applyOp st op h
    have h2 := ih (applyOp st op) h1.1
    exact ⟨h2.1, le_trans h1.2 h2.2⟩

theorem storeInv_init : storeInv initStore := by
  intro p hp
  simp [initStore] at hp

/-- C7 counterexample: the one-shot wrapper built by `registerCallback`
deletes its registry entry only after the continuation returns. With a
continuation that throws, the delete is skipped, so dispatching two
`Callback` messages carrying the same `callbackId` invokes the
continuation twice — not at most once as claimed. -/
theorem oneShot_double_invoke_counterexample :
    (dispatchCallback oneShotThrowStore (CbKey.uniq "VMcbA")).2 = [3] ∧
    (dispatchCallback (dispatchCallback oneShotThrowStore (CbKey.uniq "VMcbA")).1
        (CbKey.uniq "VMcbA")).2 = [3] := by decide

/-- C7 amended: the one-shot callback is unregistered immediately after its
continuation returns normally. Hence, for a continuation that does not
throw, any number of duplicate `Callback` dispatches with the same
`callbackId` invokes the continuation exactly once (and at most once), and
the registry entry is gone afterwards; but when the continuation throws,
the entry stays registered, so a duplicate message can invoke it again. -/
theorem oneShot_after_invoke (suffix : String) (c : Nat) (st0 : CbStore)
    (hfresh : alookup st0.callbacks (CbKey.uniq ("VMcb" ++ suffix)) = none) :
    (registerCallback suffix c false st0).1 = "VMcb" ++ suffix ∧
    (∀ n : Nat, 1 ≤ n →
      (dispatchN n (registerCallback suffix c false st0).2
        (CbKey.uniq ("VMcb" ++ suffix))).2 = [c]) ∧
    (∀ n : Nat,
      ((dispatchN n (registerCallback suffix c false st0).2
        (CbKey.uniq ("VMcb" ++ suffix))).2).length ≤ 1) ∧
    alookup ((dispatchCallback (registerCallback suffix c false st0).2
        (CbKey.uniq ("VMcb" ++ suffix))).1).callbacks
      (CbKey.uniq ("VMcb" ++ suffix)) = none ∧
    (dispatchCallback (registerCallback suffix c true st0).2
        (CbKey.uniq ("VMcb" ++ suffix))).1 =
      (registerCallback suffix c true st0).2 := by
  have hlk : alookup ((registerCallback suffix c false st0).2).callbacks
      (CbKey.uniq ("VMcb" ++ suffix)) =
      some (StoredCb.oneShot ("VMcb" ++ suffix) c false) := by
    show alookup ((CbKey.uniq ("VMcb" ++ suffix),
      StoredCb.oneShot ("VMcb" ++ suffix) c false) :: st0.callbacks) _ = _
    rw [alookup, if_pos rfl]
  have her : aerase ((registerCallback suffix c false st0).2).callbacks
      (CbKey.uniq ("VMcb" ++ suffix)) = st0.callbacks := by
    show aerase ((CbKey.uniq ("VMcb" ++ suffix),
      StoredCb.oneShot ("VMcb" ++ suffix) c false) :: st0.callbacks) _ = _
    rw [aerase, if_pos rfl, aerase_of_none _ _ hfresh]
  have hstep := dispatchCallback_oneShot hlk
  have hclean : ((dispatchCallback (registerCallback suffix c false st0).2
      (CbKey.uniq ("VMcb" ++ suffix))).1).callbacks = st0.callbacks := by
    rw [hstep, her]
  refine ⟨rfl, ?_, ?_, ?_, ?_⟩
  · intro n hn
    obtain ⟨m, rfl⟩ : ∃ m, n = m + 1 := ⟨n - 1, by omega⟩
    have hrest := dispatchN_of_none m (dispatchCallback
      (registerCallback suffix c false st0).2 (CbKey.uniq ("VMcb" ++ suffix))).1
      (CbKey.uniq ("VMcb" ++ suffix)) (by rw [hclean]; exact hfresh)
    simp only [hstep] at hrest
    simp [dispatchN, hstep, hrest]
  · intro n
    cases n with
    | zero => simp [dispatchN]
    | succ m =>
      have hrest := dispatchN_of_none m (dispatchCallback
        (registerCallback suffix c false st0).2 (CbKey.uniq ("VMcb" ++ suffix))).1
        (CbKey.uniq ("VMcb" ++ suffix)) (by rw [hclean]; exact hfresh)
      simp only [hstep] at hrest
      simp [dispatchN, hstep, hrest]
  · rw [hclean]
    exact hfresh
  · have hlkt : alookup ((registerCallback suffix c true st0).2).callbacks
        (CbKey.uniq ("VMcb" ++ suffix)) =
        some (StoredCb.oneShot ("VMcb" ++ suffix) c true) := by
      show alookup ((CbKey.uniq ("VMcb" ++ suffix),
        StoredCb.oneShot ("VMcb" ++ suffix) c true) :: st0.callbacks) _ = _
      rw [alookup, if_pos rfl]
    rw [dispatchCallback_oneShot_throws hlkt]

theorem oneShot_after_invoke_witness :
    (dispatchN 2 (registerCallback "B" 4 false initStore).2
      (CbKey.uniq ("VMcb" ++ "B"))).2 = [4] :=
  (oneShot_after_invoke "B" 4 initStore rfl).2.1 2 (by omega)

/-- C10: in any reachable session state, request ids allocated by
`addCallback` are `lastCallbackId + 1`, hence positive, strictly above
every id allocated so far, and not currently registered (never recycled:
`lastCallbackId` never decreases across further operations); a
non-callable argument yields the sentinel -1 and leaves the store
untouched; every numeric registry key is at least 1, so neither 0 nor -1
is ever a key; and `handleCallback` invoked with 0 or -1 invokes no
continuation. -/
theorem addCallback_invariants (ops : List CbOp) :
    (∀ c : Nat, addCallback false c (runOps initStore ops) = (-1, runOps initStore ops)) ∧
    (∀ c : Nat,
      (addCallback true c (runOps initStore ops)).1 =
        Int.ofNat ((runOps initStore ops).lastCallbackId + 1) ∧
      1 ≤ (addCallback true c (runOps initStore ops)).1 ∧
      alookup (runOps initStore ops).callbacks
        (CbKey.num ((addCallback true c (runOps initStore ops)).1)) = none) ∧
    (∀ p ∈ (runOps initStore ops).callbacks, ∀ i : Int, p.1 = CbKey.num i → 1 ≤ i) ∧
    (handleCallback 0 (runOps initStore ops)).2 = [] ∧
    (handleCallback (-1) (runOps initStore ops)).2 = [] ∧
    (∀ more : List CbOp,
      (runOps initStore ops).lastCallbackId ≤
        (runOps (runOps initStore ops) more).lastCallbackId) := by
  have hinv : storeInv (runOps initStore ops) :=
    (storeInv_runOps ops initStore storeInv_init).1
  refine ⟨fun c => rfl, ?_, ?_, ?_, ?_, ?_⟩
  · intro c
    refine ⟨rfl, Int.ofNat_le.mpr (Nat.succ_le_succ (Nat.zero_le _)), ?_⟩
    cases halk : alookup (runOps initStore ops).callbacks
        (CbKey.num ((addCallback true c (runOps initStore ops)).1)) with
    | none => rfl
    | some v =>
      exfalso
      have hmem := alookup_some_mem halk
      have hg := hinv _ hmem
      have h2 := hg.2
      have h3 := Int.ofNat_le.mp h2
      omega
  · intro p hp i hpi
    have hg := hinv p hp
    rw [hpi] at hg
    exact hg.1
  · rfl
  · have hnone : alookup (runOps initStore ops).callbacks (CbKey.num (-1)) = none := by
      apply alookup_eq_none_of
      intro p hp he
      have hg := hinv p hp
      rw [he] at hg
      exact absurd hg.1 (by decide)
    unfold handleCallback
    rw [if_neg (by decide), hnone]
  · intro more
    exact (storeInv_runOps more (runOps initStore ops) hinv).2

theorem addCallback_invariants_witness :
    (addCallback false 9 (runOps initStore [CbOp.add true 5])).1 = -1 ∧
    (addCallback true 9 (runOps initStore [CbOp.add true 5])).1 =
      Int.ofNat ((runOps initStore [CbOp.add true 5]).lastCallbackId + 1) ∧
    (1 : Int) ≤ 1 ∧
    (handleCallback (-1) (runOps initStore [CbOp.add true 5])).2 = [] :=
  ⟨congrArg Prod.fst ((addCallback_invariants [CbOp.add true 5]).1 9),
   ((addCallback_invariants [CbOp.add true 5]).2.1 9).1,
   (addCallback_invariants [CbOp.add true 5]).2.2.1
     (CbKey.num 1, StoredCb.plain 5) (by decide) 1 rfl,
   (addCallback_invariants [CbOp.add true 5]).2.2.2.2.1⟩

/-- C8 is a code bug. A callback registered through the thenable before the
host reports the style element is pushed onto `callbacks`
(`pendingCbs = [7]`), but when the one-shot `AddStyle` callback fires,
`callbacks.splice()` — called with no arguments — removes and returns
nothing, so no pending callback is ever invoked (the resolution step
performs zero invocations, where the spec requires the pending callback to
be called with the element). A callback attached after resolution is
invoked immediately, as specified. The intended call is
`callbacks.splice(0)`. -/
theorem addStyle_pending_dropped :
    (addStyleThen addStyleInit 7).2 = [] ∧
    ((addStyleThen addStyleInit 7).1).pendingCbs = [7] ∧
    (addStyleCallback (addStyleThen addStyleInit 7).1 (some 3)).2 = [] ∧
    (addStyleThen (addStyleCallback (addStyleThen addStyleInit 7).1 (some 3)).1 8).2 =
      [(8, some 3)] := by decide

theorem parseStr_cons (c : Char) (rest : List Char) :
    parseStr (c :: rest) =
      (if c = backslashC then
        match rest with
        | [] => none
        | d :: rest2 =>
          match parseStr rest2 with
          | some (s, r) => some (d :: s, r)
          | none => none
      else if c = quoteC then some ([], rest)
      else
        match parseStr rest with
        | some (s, r) => some (c :: s, r)
        | none => none) := by
  rw [parseStr.eq_def]

theorem parseStr_escList (s rest : List Char) :
    parseStr (escList s ++ (quoteC :: rest)) = some (s, rest) := by
  induction s with
  | nil =>
    show parseStr (quoteC :: rest) = _
    rw [parseStr_cons, if_neg (by decide), if_pos rfl]
  | cons c t ih =>
    by_cases hc : c = quoteC ∨ c = backslashC
    · have hE : escList (c :: t) = backslashC :: c :: escList t := by
        show escChar c ++ escList t = _
        rw [escChar, if_pos hc]
        rfl
      show parseStr (escList (c :: t) ++ (quoteC :: rest)) = _
      rw [hE, List.cons_append, List.cons_append, parseStr_cons, if_pos rfl]
      show (match parseStr (escList t ++ (quoteC :: rest)) with
        | some (s, r) => some (c :: s, r)
        | none => none) = _
      rw [ih]
    · have hc2 := hc
      push_neg at hc2
      have hE : escList (c :: t) = c :: escList t := by
        show escChar c ++ escList t = _
        rw [escChar, if_neg hc]
        rfl
      show parseStr (escList (c :: t) ++ (quoteC :: rest)) = _
      rw [hE, List.cons_append, parseStr_cons, if_neg hc2.2, if_neg hc2.1, ih]

theorem digit_facts : ∀ d < 10, (digitToChar d).isDigit = true ∧
    charDigitVal (digitToChar d) = d := by decide

theorem foldl_digits (L : List Nat) (hL : ∀ d ∈ L, d < 10) : ∀ a : Nat,
    ((L.map digitToChar).reverse).foldl (fun x c => x * 10 + charDigitVal c) a =
      a * 10 ^ L.length + Nat.ofDigits 10 L := by
  induction L with
  | nil => simp
  | cons d t ih =>
    intro a
    have hd : d < 10 := hL d (List.mem_cons_self _ _)
    have ht : ∀ x ∈ t, x < 10 := fun x hx => hL x (List.mem_cons_of_mem _ hx)
    simp only [List.map_cons, List.reverse_cons, List.foldl_append, List.foldl_cons,
      List.foldl_nil]
    rw [ih ht a, (digit_facts d hd).2, Nat.ofDigits_cons, List.length_cons]
    ring

theorem charsToNat_natChars (n : Nat) : charsToNat (natChars n) = n := by
  unfold natChars
  split
  · next h =>
    subst h
    decide
  · next h =>
    unfold charsToNat
    rw [foldl_digits _ (fun d hd => Nat.digits_lt_base (by norm_num) hd) 0]
    simp [Nat.ofDigits_digits]

theorem natChars_ne_nil (n : Nat) : natChars n ≠ [] := by
  unfold natChars
  split
  · simp
  · next h =>
    simp only [ne_eq, List.reverse_eq_nil_iff, List.map_eq_nil_iff]
    exact fun hc => h (by simpa using Nat.digits_eq_nil_iff_eq_zero.mp hc)

theorem natChars_digits (n : Nat) : ∀ c ∈ natChars n, c.isDigit = true := by
  unfold natChars
  split
  · intro c hc
    simp only [List.mem_singleton] at hc
    subst hc
    decide
  · intro c hc
    simp only [List.mem_reverse, List.mem_map] at hc
    obtain ⟨d, hd, rfl⟩ := hc
    exact (digit_facts d (Nat.digits_lt_base (by norm_num) hd)).1

theorem takeWhile_append_all {p : Char → Bool} (xs ys : List Char)
    (hx : ∀ x ∈ xs, p x = true) (hy : ∀ c, ys.head? = some c → p c = false) :
    (xs ++ ys).takeWhile p = xs ∧ (xs ++ ys).dropWhile p = ys := by
  induction xs with
  | nil =>
    simp only [List.nil_append]
    cases ys with
    | nil => simp
    | cons c t =>
      have hcf := hy c rfl
      simp [List.takeWhile_cons, List.dropWhile_cons, hcf]
  | cons x xs ih =>
    have hx1 : p x = true := hx x (List.mem_cons_self _ _)
    have ih2 := ih (fun z hz => hx z (List.mem_cons_of_mem _ hz))
    simp [List.takeWhile_cons, List.dropWhile_cons, hx1, ih2.1, ih2.2]

theorem isDigit_ne {c x : Char} (h : c.isDigit = true) (hx : x.isDigit = false) :
    c ≠ x := by
  intro he
  rw [he, hx] at h
  cases h

theorem sizeJ_pos (v : JSON) : 1 ≤ sizeJ v := by
  cases v <;> simp [sizeJ] <;> omega

theorem printJ_head (v : JSON) :
    ∃ c t, printJ v = c :: t ∧
      (c = 'n' ∨ c = 't' ∨ c = 'f' ∨ c = quoteC ∨ c = lbrackC ∨ c = lbraceC ∨
        c = '-' ∨ c.isDigit = true) := by
  cases v with
  | null => exact ⟨'n', _, rfl, by tauto⟩
  | bool b =>
    cases b
    · exact ⟨'f', _, rfl, by tauto⟩
    · exact ⟨'t', _, rfl, by tauto⟩
  | num i =>
    show ∃ c t, intChars i = c :: t ∧ _
    unfold intChars
    split
    · exact ⟨'-', _, rfl, by tauto⟩
    · obtain ⟨c, t, hct⟩ := List.exists_cons_of_ne_nil (natChars_ne_nil i.toNat)
      refine ⟨c, t, hct, ?_⟩
      have : c.isDigit = true := natChars_digits _ c (by rw [hct]; exact List.mem_cons_self _ _)
      tauto
  | str s => exact ⟨quoteC, _, rfl, by tauto⟩
  | arr xs => exact ⟨lbrackC, _, rfl, by tauto⟩
  | obj fs => exact ⟨lbraceC, _, rfl, by tauto⟩

theorem printJ_ne_nil (v : JSON) : printJ v ≠ [] := by
  obtain ⟨c, t, hct, -⟩ := printJ_head v
  rw [hct]
  simp

theorem noDigitHead_nil : noDigitHead [] := by
  intro c hc
  cases hc

theorem noDigitHead_cons {c : Char} (h : c.isDigit = false) (r : List Char) :
    noDigitHead (c :: r) := by
  intro d hd
  injection hd with hd
  rw [← hd]
  exact h

theorem parseVal_cons (fuel : Nat) (c : Char) (rest : List Char) :
    parseVal (fuel + 1) (c :: rest) =
      (if c = 'n' then
        match dropLit ['u', 'l', 'l'] rest with
        | some r => some (JSON.null, r)
        | none => none
      else if c = 't' then
        match dropLit ['r', 'u', 'e'] rest with
        | some r => some (JSON.bool true, r)
        | none => none
      else if c = 'f' then
        match dropLit ['a', 'l', 's', 'e'] rest with
        | some r => some (JSON.bool false, r)
        | none => none
      else if c = quoteC then
        match parseStr rest with
        | some (s, r) => some (JSON.str s, r)
        | none => none
      else if c = lbrackC then
        match parseItems fuel rest with
        | some (vs, r) => some (JSON.arr vs, r)
        | none => none
      else if c = lbraceC then
        match parseFields fuel rest with
        | some (fs, r) => some (JSON.obj fs, r)
        | none => none
      else if c = '-' then
        match rest with
        | [] => none
        | d :: _ =>
          if d.isDigit then
            some (JSON.num (-(Int.ofNat (charsToNat (rest.takeWhile Char.isDigit)))),
              rest.dropWhile Char.isDigit)
          else none
      else if c.isDigit then
        some (JSON.num (Int.ofNat (charsToNat ((c :: rest).takeWhile Char.isDigit))),
          (c :: rest).dropWhile Char.isDigit)
      else none) := rfl

theorem parseItems_cons (fuel : Nat) (c : Char) (rest : List Char) :
    parseItems (fuel + 1) (c :: rest) =
      (if c = rbrackC then some ([], rest)
      else
        match parseVal fuel (c :: rest) with
        | none => none
        | some (v, r) =>
          match r with
          | [] => none
          | d :: r2 =>
            if d = ',' then
              match parseItems fuel r2 with
              | some (vs, rr) => some (v :: vs, rr)
              | none => none
            else if d = rbrackC then some ([v], r2)
            else none) := rfl

theorem parseFields_cons (fuel : Nat) (c : Char) (rest : List Char) :
    parseFields (fuel + 1) (c :: rest) =
      (if c = rbraceC then some ([], rest)
      else if c = quoteC then
        match parseStr rest with
        | none => none
        | some (k, r) =>
          match r with
          | [] => none
          | d :: r2 =>
            if d = ':' then
              match parseVal fuel r2 with
              | none => none
              | some (v, r3) =>
                match r3 with
                | [] => none
                | e :: r4 =>
                  if e = ',' then
                    match parseFields fuel r4 with
                    | some (fs, rr) => some ((k, v) :: fs, rr)
                    | none => none
                  else if e = rbraceC then some ([(k, v)], r4)
                  else none
            else none
      else none) := rfl

theorem parse_print : ∀ fuel : Nat,
    (∀ v rest, sizeJ v ≤ fuel → noDigitHead rest →
      parseVal fuel (printJ v ++ rest) = some (v, rest)) ∧
    (∀ xs rest, sizeItems xs < fuel →
      parseItems fuel (printItems xs ++ (rbrackC :: rest)) = some (xs, rest)) ∧
    (∀ fs rest, sizeFields fs < fuel →
      parseFields fuel (printFields fs ++ (rbraceC :: rest)) = some (fs, rest)) := by
  intro fuel
  induction fuel using Nat.strong_induction_on with
  | _ fuel IH =>
    cases fuel with
    | zero =>
      refine ⟨?_, ?_, ?_⟩
      · intro v rest hs _
        exact absurd hs (by have := sizeJ_pos v; omega)
      · intro xs rest hs
        exact absurd hs (by omega)
      · intro fs rest hs
        exact absurd hs (by omega)
    | succ g =>
      obtain ⟨IHP, IHQ, IHR⟩ := IH g (Nat.lt_succ_self g)
      refine ⟨?_, ?_, ?_⟩
      · intro v rest hs hrest
        cases v with
        | null => rfl
        | bool b => cases b <;> rfl
        | num i =>
          by_cases hneg : i < 0
          · have hshape : printJ (JSON.num i) ++ rest = '-' :: (natChars i.natAbs ++ rest) := by
              show intChars i ++ rest = _
              rw [intChars, if_pos hneg]
              rfl
            obtain ⟨c, t, hct⟩ := List.exists_cons_of_ne_nil (natChars_ne_nil i.natAbs)
            have hcd : c.isDigit = true :=
              natChars_digits _ c (by rw [hct]; exact List.mem_cons_self _ _)
            obtain ⟨htake, hdrop⟩ := takeWhile_append_all (p := Char.isDigit)
              (natChars i.natAbs) rest (natChars_digits _) hrest
            rw [hshape, parseVal_cons, if_neg (by decide), if_neg (by decide),
              if_neg (by decide), if_neg (by decide), if_neg (by decide),
              if_neg (by decide), if_pos rfl, hct, List.cons_append]
            show (if c.isDigit then
                some (JSON.num (-(Int.ofNat (charsToNat
                    ((c :: (t ++ rest)).takeWhile Char.isDigit)))),
                  (c :: (t ++ rest)).dropWhile Char.isDigit)
              else none) = _
            rw [if_pos hcd]
            have hback : c :: (t ++ rest) = natChars i.natAbs ++ rest := by
              rw [hct]
              rfl
            rw [hback, htake, hdrop, charsToNat_natChars]
            have hval : -(Int.ofNat i.natAbs) = i := by
              rw [Int.ofNat_eq_natCast]
              omega
            rw [hval]
          · have hshape : printJ (JSON.num i) ++ rest = natChars i.toNat ++ rest := by
              show intChars i ++ rest = _
              rw [intChars, if_neg hneg]
            obtain ⟨c, t, hct⟩ := List.exists_cons_of_ne_nil (natChars_ne_nil i.toNat)
            have hcd : c.isDigit = true :=
              natChars_digits _ c (by rw [hct]; exact List.mem_cons_self _ _)
            obtain ⟨htake, hdrop⟩ := takeWhile_append_all (p := Char.isDigit)
              (natChars i.toNat) rest (natChars_digits _) hrest
            rw [hshape, hct, List.cons_append, parseVal_cons,
              if_neg (isDigit_ne hcd (by decide)), if_neg (isDigit_ne hcd (by decide)),
              if_neg (isDigit_ne hcd (by decide)), if_neg (isDigit_ne hcd (by decide)),
              if_neg (isDigit_ne hcd (by decide)), if_neg (isDigit_ne hcd (by decide)),
              if_neg (isDigit_ne hcd (by decide)), if_pos hcd]
            have hback : c :: (t ++ rest) = natChars i.toNat ++ rest := by
              rw [hct]
              rfl
            rw [hback, htake, hdrop, charsToNat_natChars]
            have hval : Int.ofNat i.toNat = i := by
              rw [Int.ofNat_eq_natCast]
              omega
            rw [hval]
        | str s =>
          have hshape : printJ (JSON.str s) ++ rest =
              quoteC :: (escList s ++ (quoteC :: rest)) := by
            show printStringJ s ++ rest = _
            rw [printStringJ]
            simp [List.append_assoc]
          rw [hshape, parseVal_cons, if_neg (by decide), if_neg (by decide),
            if_neg (by decide), if_pos rfl, parseStr_escList]
        | arr xs =>
          have hshape : printJ (JSON.arr xs) ++ rest =
              lbrackC :: (printItems xs ++ (rbrackC :: rest)) := by
            show (lbrackC :: (printItems xs ++ [rbrackC])) ++ rest = _
            simp [List.append_assoc]
          have hsz : sizeItems xs < g := by
            have h2 : 2 + sizeItems xs ≤ g + 1 := hs
            omega
          rw [hshape, parseVal_cons, if_neg (by decide), if_neg (by decide),
            if_neg (by decide), if_neg (by decide), if_pos rfl, IHQ xs rest hsz]
        | obj fs =>
          have hshape : printJ (JSON.obj fs) ++ rest =
              lbraceC :: (printFields fs ++ (rbraceC :: rest)) := by
            show (lbraceC :: (printFields fs ++ [rbraceC])) ++ rest = _
            simp [List.append_assoc]
          have hsz : sizeFields fs < g := by
            have h2 : 2 + sizeFields fs ≤ g + 1 := hs
            omega
          rw [hshape, parseVal_cons, if_neg (by decide), if_neg (by decide),
            if_neg (by decide), if_neg (by decide), if_neg (by decide), if_pos rfl,
            IHR fs rest hsz]
      · intro xs rest hlt
        cases xs with
        | nil =>
          show parseItems (g + 1) (rbrackC :: rest) = _
          rw [parseItems_cons, if_pos rfl]
        | cons x t =>
          obtain ⟨c, tl, hct, hcls⟩ := printJ_head x
          have hcne : c ≠ rbrackC := by
            rcases hcls with h | h | h | h | h | h | h | h
            all_goals first
            | (rw [h]; decide)
            | (exact isDigit_ne h (by decide))
          have hlt2 : sizeJ x + 1 + sizeItems t < g + 1 := hlt
          cases t with
          | nil =>
            have hshape : printItems [x] ++ (rbrackC :: rest) =
                c :: (tl ++ (rbrackC :: rest)) := by
              show printJ x ++ (rbrackC :: rest) = _
              rw [hct]
              rfl
            rw [hshape, parseItems_cons, if_neg hcne]
            have hP := IHP x (rbrackC :: rest) (by omega)
              (noDigitHead_cons (by decide) rest)
            rw [show c :: (tl ++ (rbrackC :: rest)) = printJ x ++ (rbrackC :: rest) by
              rw [hct]; rfl]
            rw [hP]
            exact rfl
          | cons y t2 =>
            have hshape : printItems (x :: y :: t2) ++ (rbrackC :: rest) =
                c :: (tl ++ (',' :: (printItems (y :: t2) ++ (rbrackC :: rest)))) := by
              show (printJ x ++ ',' :: printItems (y :: t2)) ++ (rbrackC :: rest) = _
              rw [hct]
              simp [List.append_assoc]
            rw [hshape, parseItems_cons, if_neg hcne]
            have hP := IHP x (',' :: (printItems (y :: t2) ++ (rbrackC :: rest)))
              (by omega) (noDigitHead_cons (by decide) _)
            rw [show c :: (tl ++ (',' :: (printItems (y :: t2) ++ (rbrackC :: rest)))) =
                printJ x ++ (',' :: (printItems (y :: t2) ++ (rbrackC :: rest))) by
              rw [hct]; rfl]
            rw [hP]
            show (match parseItems g (printItems (y :: t2) ++ (rbrackC :: rest)) with
              | some (vs, rr) => some (x :: vs, rr)
              | none => none) = _
            have hsz2 : sizeItems (y :: t2) < g := by
              have := sizeJ_pos x
              omega
            rw [IHQ (y :: t2) rest hsz2]
      · intro fs rest hlt
        cases fs with
        | nil =>
          show parseFields (g + 1) (rbraceC :: rest) = _
          rw [parseFields_cons, if_pos rfl]
        | cons f t =>
          obtain ⟨k, v⟩ := f
          have hlt2 : sizeJ v + 1 + sizeFields t < g + 1 := hlt
          cases t with
          | nil =>
            have hshape : printFields [(k, v)] ++ (rbraceC :: rest) =
                quoteC :: (escList k ++ (quoteC ::
                  (':' :: (printJ v ++ (rbraceC :: rest))))) := by
              show (printStringJ k ++ ':' :: printJ v) ++ (rbraceC :: rest) = _
              rw [printStringJ]
              simp [List.append_assoc]
            rw [hshape, parseFields_cons, if_neg (by decide), if_pos rfl,
              parseStr_escList]
            show (match parseVal g (printJ v ++ (rbraceC :: rest)) with
              | none => none
              | some (v2, r3) =>
                match r3 with
                | [] => none
                | e :: r4 =>
                  if e = ',' then
                    match parseFields g r4 with
                    | some (fs2, rr) => some ((k, v2) :: fs2, rr)
                    | none => none
                  else if e = rbraceC then some ([(k, v2)], r4)
                  else none) = _
            rw [IHP v (rbraceC :: rest) (by omega) (noDigitHead_cons (by decide) rest)]
            exact rfl
          | cons f2 t2 =>
            have hshape : printFields ((k, v) :: f2 :: t2) ++ (rbraceC :: rest) =
                quoteC :: (escList k ++ (quoteC :: (':' :: (printJ v ++
                  (',' :: (printFields (f2 :: t2) ++ (rbraceC :: rest))))))) := by
              show ((printStringJ k ++ ':' :: printJ v) ++
                ',' :: printFields (f2 :: t2)) ++ (rbraceC :: rest) = _
              rw [printStringJ]
              simp [List.append_assoc]
            rw [hshape, parseFields_cons, if_neg (by decide), if_pos rfl,
              parseStr_escList]
            show (match parseVal g (printJ v ++
                (',' :: (printFields (f2 :: t2) ++ (rbraceC :: rest)))) with
              | none => none
              | some (v2, r3) =>
                match r3 with
                | [] => none
                | e :: r4 =>
                  if e = ',' then
                    match parseFields g r4 with
                    | some (fs2, rr) => some ((k, v2) :: fs2, rr)
                    | none => none
                  else if e = rbraceC then some ([(k, v2)], r4)
                  else none) = _
            rw [IHP v (',' :: (printFields (f2 :: t2) ++ (rbraceC :: rest)))
              (by omega) (noDigitHead_cons (by decide) _)]
            show (match parseFields g (printFields (f2 :: t2) ++ (rbraceC :: rest)) with
              | some (fs2, rr) => some ((k, v) :: fs2, rr)
              | none => none) = _
            have hsz2 : sizeFields (f2 :: t2) < g := by
              have := sizeJ_pos v
              omega
            rw [IHR (f2 :: t2) rest hsz2]

mutual
theorem sizeLen : ∀ v : JSON, sizeJ v + 1 ≤ 2 * (printJ v).length
  | JSON.null => by decide
  | JSON.bool b => by cases b <;> decide
  | JSON.num i => by
    show 1 + 1 ≤ 2 * (intChars i).length
    have h : intChars i ≠ [] := by
      unfold intChars
      split
      · simp
      · exact natChars_ne_nil _
    have := List.length_pos.mpr h
    omega
  | JSON.str s => by
    show 1 + 1 ≤ 2 * (printStringJ s).length
    simp [printStringJ]
  | JSON.arr xs => by
    have h := sizeLenItems xs
    show 2 + sizeItems xs + 1 ≤ 2 * (lbrackC :: (printItems xs ++ [rbrackC])).length
    simp only [List.length_cons, List.length_append, List.length_singleton]
    omega
  | JSON.obj fs => by
    have h := sizeLenFields fs
    show 2 + sizeFields fs + 1 ≤ 2 * (lbraceC :: (printFields fs ++ [rbraceC])).length
    simp only [List.length_cons, List.length_append, List.length_singleton]
    omega
theorem sizeLenItems : ∀ xs : List JSON, sizeItems xs ≤ 2 * (printItems xs).length + 1
  | [] => by simp [sizeItems, printItems]
  | [x] => by
    have h := sizeLen x
    show sizeJ x + 1 + sizeItems [] ≤ 2 * (printJ x).length + 1
    simp only [sizeItems]
    omega
  | x :: y :: t => by
    have h1 := sizeLen x
    have h2 := sizeLenItems (y :: t)
    show sizeJ x + 1 + sizeItems (y :: t) ≤
      2 * (printJ x ++ ',' :: printItems (y :: t)).length + 1
    simp only [List.length_append, List.length_cons]
    omega
theorem sizeLenFields : ∀ fs : List (List Char × JSON),
    sizeFields fs ≤ 2 * (printFields fs).length + 1
  | [] => by simp [sizeFields, printFields]
  | [(k, v)] => by
    have h := sizeLen v
    show sizeJ v + 1 + sizeFields [] ≤
      2 * (printStringJ k ++ ':' :: printJ v).length + 1
    simp only [sizeFields, List.length_append, List.length_cons]
    omega
  | (k, v) :: f2 :: t => by
    have h1 := sizeLen v
    have h2 := sizeLenFields (f2 :: t)
    show sizeJ v + 1 + sizeFields (f2 :: t) ≤
      2 * ((printStringJ k ++ ':' :: printJ v) ++ ',' :: printFields (f2 :: t)).length + 1
    simp only [List.length_append, List.length_cons]
    omega
end

theorem jsonLoad_printJ (v : JSON) : jsonLoad (printJ v) = some v := by
  have hfuel : sizeJ v ≤ 2 * (printJ v).length + 1 := by
    have := sizeLen v
    omega
  have h := (parse_print (2 * (printJ v).length + 1)).1 v [] hfuel noDigitHead_nil
  rw [List.append_nil] at h
  unfold jsonLoad
  rw [h]

/-- C5: for every JSON value `v` and key, `GM_setValue(key, v)` followed by
`GM_getValue(key)` on the same script's value mapping returns a value
structurally equal to `v`, observed through the local cache alone (the
read never consults the host; the set's host notification is returned
separately and unused here). -/
theorem value_roundtrip (values : String → Option (List Char)) (key : String)
    (v : JSON) (dflt : Option GMVal) :
    GM_getValue (GM_setValue values key v).1 key dflt = some (GMVal.js v) := by
  have hne : jsonDump v ≠ [] := printJ_ne_nil v
  have hv : (GM_setValue values key v).1 key = some ('o' :: printJ v) := by
    show (if key = key then (if jsonDump v = [] then none else some ('o' :: jsonDump v))
      else values key) = _
    rw [if_pos rfl, if_neg hne]
    rfl
  unfold GM_getValue
  rw [hv]
  show some (dataDecode 'o' (printJ v)) = _
  unfold dataDecode
  rw [if_pos rfl, jsonLoad_printJ]
